import Mathlib

/-!
Verification development for the document normalization and reconciliation
core of the keywords-analysis repository (`src/news_kw/filter_files.py` and
`src/news_kw/io.py`).

Strings are modelled as `List Char`; Python's Unicode-aware character
classes (`\w`, `\s`) are modelled by their ASCII behaviour
(`Char.isAlphanum`, `Char.isWhitespace`), and path separators are POSIX
(`/`).  Filenames are assumed newline-free (real directory entries in this
repository are), so `.` in the regular expressions matches every character
that can occur.
-/

namespace NewsKw

/-- Strings as explicit character lists. -/
abbrev Str := List Char

/-- `startsWith s p` is Python's `s.startswith(p)`. -/
def startsWith : Str → Str → Bool
  | _, [] => true
  | [], _ :: _ => false
  | c :: cs, p :: ps => c == p && startsWith cs ps

/-- `containsSub s pat` is Python's `pat in s` (substring containment). -/
def containsSub : Str → Str → Bool
  | s, pat =>
    startsWith s pat ||
      match s with
      | [] => false
      | _ :: cs => containsSub cs pat

/-! ## NameSanitizer — `sanitize_filename` (filter_files.py:186-208) -/

/-- Character kept by `re.sub(r'[^\w\s-]', '_', ...)`: word, whitespace or hyphen. -/
def keepChar (c : Char) : Bool :=
  c.isAlphanum || c == '_' || c.isWhitespace || c == '-'

/-- Character of the class `[\s_]` collapsed by the second substitution. -/
def usChar (c : Char) : Bool :=
  c.isWhitespace || c == '_'

/-- `re.sub(r'[^\w\s-]', '_', s)`. -/
def subSpecial (s : Str) : Str :=
  s.map (fun c => if keepChar c then c else '_')

/-- `re.sub(r'[\s_]+', '_', s)`: collapse each maximal run of whitespace or
underscores into a single underscore.  The flag records whether the previous
character belonged to such a run. -/
def collapseAux : Bool → Str → Str
  | _, [] => []
  | prev, c :: cs =>
    if usChar c then
      if prev then collapseAux true cs else '_' :: collapseAux true cs
    else
      c :: collapseAux false cs

/-- `s.lstrip('_')`. -/
def lstripU (s : Str) : Str := s.dropWhile (· == '_')

/-- `s.rstrip('_')`. -/
def rstripU (s : Str) : Str := (s.reverse.dropWhile (· == '_')).reverse

/-- `sanitize_filename` from filter_files.py: replace characters outside
`[\w\s-]` with `_`, collapse `[\s_]+` runs to `_`, strip `_` at both ends,
truncate to `max_length`, strip trailing `_` again. -/
def sanitize_filename (filename : Str) (max_length : Nat) : Str :=
  let sanitized := subSpecial filename
  let sanitized := collapseAux false sanitized
  let sanitized := rstripU (lstripU sanitized)
  let sanitized := if sanitized.length > max_length then sanitized.take max_length else sanitized
  rstripU sanitized

/-- No two adjacent underscores. -/
def noDoubleU : Str → Bool
  | a :: b :: t => !(a == '_' && b == '_') && noDoubleU (b :: t)
  | _ => true

/-- Normal form characterizing strings that `sanitize_filename` maps to
themselves at budget `n`. -/
def SanNormal (n : Nat) (s : Str) : Prop :=
  (∀ c ∈ s, keepChar c = true ∧ c.isWhitespace = false) ∧
  noDoubleU s = true ∧
  s.head? ≠ some '_' ∧
  s.getLast? ≠ some '_' ∧
  s.length ≤ n

theorem subSpecial_id {s : Str} (h : ∀ c ∈ s, keepChar c = true) :
    subSpecial s = s := by
  induction s with
  | nil => rfl
  | cons c cs ih =>
    have hc := h c (by simp)
    simp only [subSpecial, List.map_cons, hc, if_pos]
    exact congrArg (c :: ·) (ih fun d hd => h d (by simp [hd]))

theorem noDoubleU_cons {a : Char} {t : Str} (h : noDoubleU (a :: t) = true) :
    noDoubleU t = true := by
  cases t with
  | nil => rfl
  | cons b t' =>
    simp only [noDoubleU, Bool.and_eq_true] at h
    exact h.2

theorem noDoubleU_head {t : Str} (h : noDoubleU ('_' :: t) = true) :
    t.head? ≠ some '_' := by
  cases t with
  | nil => simp
  | cons b t' =>
    simp only [noDoubleU, Bool.and_eq_true, Bool.not_eq_true'] at h
    intro hb
    simp only [List.head?_cons, Option.some.injEq] at hb
    rw [hb] at h
    simp at h

/-- On whitespace-free strings without adjacent underscores, the collapsing
substitution is the identity (and also from the `prev = true` state when the
string does not start with an underscore). -/
theorem collapseAux_id {s : Str} (hws : ∀ c ∈ s, c.isWhitespace = false)
    (hdd : noDoubleU s = true) :
    collapseAux false s = s ∧ (s.head? ≠ some '_' → collapseAux true s = s) := by
  induction s with
  | nil => exact ⟨rfl, fun _ => rfl⟩
  | cons c cs ih =>
    have hcw := hws c (by simp)
    have ihr := ih (fun d hd => hws d (by simp [hd])) (noDoubleU_cons hdd)
    by_cases hu : usChar c = true
    · have hc : c = '_' := by
        unfold usChar at hu
        simp only [hcw, Bool.false_or, beq_iff_eq] at hu
        exact hu
      subst hc
      have htail : collapseAux true cs = cs := ihr.2 (noDoubleU_head hdd)
      constructor
      · simp [collapseAux, usChar, htail]
      · intro hh
        simp at hh
    · have hc : (c == '_') = false := by
        unfold usChar at hu
        simp only [hcw, Bool.false_or] at hu
        simpa using hu
      constructor
      · simp [collapseAux, usChar, hcw, hc, ihr.1]
      · intro _
        simp [collapseAux, usChar, hcw, hc, ihr.1]

theorem lstripU_id {s : Str} (h : s.head? ≠ some '_') : lstripU s = s := by
  cases s with
  | nil => rfl
  | cons c cs =>
    simp only [List.head?_cons, ne_eq, Option.some.injEq] at h
    simp [lstripU, List.dropWhile_cons, h]

theorem rstripU_id {s : Str} (h : s.getLast? ≠ some '_') : rstripU s = s := by
  rw [← List.head?_reverse] at h
  have h2 : lstripU s.reverse = s.reverse := lstripU_id h
  unfold lstripU at h2
  unfold rstripU
  rw [h2, List.reverse_reverse]

/-- A normal-form string is a fixed point of `sanitize_filename`. -/
theorem sanitize_of_normal {n : Nat} {s : Str} (h : SanNormal n s) :
    sanitize_filename s n = s := by
  obtain ⟨hkeep, hdd, hhead, hlast, hlen⟩ := h
  have h1 : subSpecial s = s := subSpecial_id (fun c hc => (hkeep c hc).1)
  have h2 : collapseAux false s = s := (collapseAux_id (fun c hc => (hkeep c hc).2) hdd).1
  have h3 : lstripU s = s := lstripU_id hhead
  have h4 : rstripU s = s := rstripU_id hlast
  have h5 : ¬ s.length > n := by omega
  simp only [sanitize_filename, h1, h2, h3, h4, if_neg h5]

/-- The relation "not both underscores" underlying `noDoubleU`. -/
def noDDRel (a b : Char) : Prop := ¬(a = '_' ∧ b = '_')

theorem noDoubleU_iff_chain {s : Str} :
    noDoubleU s = true ↔ List.Chain' noDDRel s := by
  induction s with
  | nil => simp [noDoubleU]
  | cons a t ih =>
    cases t with
    | nil => simp [noDoubleU]
    | cons b t' =>
      rw [List.chain'_cons, ← ih]
      simp only [noDoubleU, Bool.and_eq_true, Bool.not_eq_true',
        Bool.and_eq_false_iff, beq_eq_false_iff_ne, beq_iff_eq, noDDRel]
      constructor
      · rintro ⟨h1, h2⟩
        refine ⟨fun ⟨ha, hb⟩ => ?_, h2⟩
        cases h1 with
        | inl h => exact h ha
        | inr h => exact h hb
      · rintro ⟨h1, h2⟩
        refine ⟨?_, h2⟩
        by_cases ha : a = '_'
        · exact Or.inr fun hb => h1 ⟨ha, hb⟩
        · exact Or.inl ha

theorem noDoubleU_of_pre {s t : Str} (h : t <+: s) (hs : noDoubleU s = true) :
    noDoubleU t = true := by
  have hc := List.Chain'.prefix (noDoubleU_iff_chain.1 hs) h
  exact noDoubleU_iff_chain.2 hc

theorem noDoubleU_of_suffix {s t : Str} (h : t <:+ s) (hs : noDoubleU s = true) :
    noDoubleU t = true :=
  noDoubleU_iff_chain.2 ((noDoubleU_iff_chain.1 hs).suffix h)

theorem head?_dropWhile_not {p : Char → Bool} :
    ∀ (l : Str) (x : Char), (l.dropWhile p).head? = some x → p x = false := by
  intro l
  induction l with
  | nil => intro x h; simp [List.dropWhile] at h
  | cons c cs ih =>
    intro x h
    by_cases hc : p c = true
    · rw [List.dropWhile_cons, if_pos hc] at h
      exact ih x h
    · rw [List.dropWhile_cons, if_neg hc] at h
      simp only [List.head?_cons, Option.some.injEq] at h
      subst h
      simpa using hc

theorem head?_of_pre {s t : Str} (h : t <+: s) {x : Char} (hx : t.head? = some x) :
    s.head? = some x := by
  obtain ⟨r, hr⟩ := h
  subst hr
  cases t with
  | nil => simp at hx
  | cons c cs => simpa using hx

theorem lstripU_isSuffix (l : Str) : lstripU l <:+ l := List.dropWhile_suffix _

theorem rstripU_isPrefix (l : Str) : rstripU l <+: l := by
  have h : l.reverse.dropWhile (· == '_') <:+ l.reverse := List.dropWhile_suffix _
  have := List.reverse_prefix.mpr h
  simpa [rstripU] using this

theorem lstripU_head_ne (l : Str) : (lstripU l).head? ≠ some '_' := by
  intro h
  have := head?_dropWhile_not (p := (· == '_')) l '_' h
  simp at this

theorem rstripU_getLast_ne (l : Str) : (rstripU l).getLast? ≠ some '_' := by
  intro h
  rw [rstripU, List.getLast?_reverse] at h
  have := head?_dropWhile_not (p := (· == '_')) l.reverse '_' h
  simp at this

theorem mem_subSpecial {s : Str} {c : Char} (h : c ∈ subSpecial s) :
    keepChar c = true := by
  simp only [subSpecial, List.mem_map] at h
  obtain ⟨a, _, ha⟩ := h
  by_cases hk : keepChar a = true
  · rw [if_pos hk] at ha; rwa [← ha]
  · rw [if_neg hk] at ha; rw [← ha]; decide

theorem mem_collapseAux {b : Bool} {s : Str} {c : Char} (h : c ∈ collapseAux b s) :
    c = '_' ∨ (c ∈ s ∧ usChar c = false) := by
  induction s generalizing b with
  | nil => simp [collapseAux] at h
  | cons a t ih =>
    by_cases ha : usChar a = true
    · cases b with
      | true =>
        simp only [collapseAux, ha, if_pos, if_true] at h
        rcases ih (b := true) h with h' | h'
        · exact Or.inl h'
        · exact Or.inr ⟨by simp [h'.1], h'.2⟩
      | false =>
        simp only [collapseAux, ha, if_true] at h
        rw [if_neg (by simp)] at h
        rcases List.mem_cons.1 h with h' | h'
        · exact Or.inl h'
        · rcases ih (b := true) h' with h'' | h''
          · exact Or.inl h''
          · exact Or.inr ⟨by simp [h''.1], h''.2⟩
    · simp only [collapseAux, ha] at h
      rw [if_neg (by simp [ha])] at h
      rcases List.mem_cons.1 h with h' | h'
      · subst h'
        exact Or.inr ⟨by simp, by simpa using ha⟩
      · rcases ih (b := false) h' with h'' | h''
        · exact Or.inl h''
        · exact Or.inr ⟨by simp [h''.1], h''.2⟩

theorem noDoubleU_cons_intro {a : Char} {t : Str}
    (h1 : a = '_' → t.head? ≠ some '_') (h2 : noDoubleU t = true) :
    noDoubleU (a :: t) = true := by
  cases t with
  | nil => rfl
  | cons b t' =>
    simp only [noDoubleU, Bool.and_eq_true, Bool.not_eq_true']
    refine ⟨?_, h2⟩
    by_cases ha : a = '_'
    · have hb : b ≠ '_' := by
        intro hb
        exact h1 ha (by simp [hb])
      simp [ha, hb]
    · simp [ha]

theorem collapseAux_shape (s : Str) :
    (collapseAux true s).head? ≠ some '_' ∧
      ∀ b, noDoubleU (collapseAux b s) = true := by
  induction s with
  | nil => exact ⟨by simp [collapseAux], fun b => rfl⟩
  | cons c cs ih =>
    obtain ⟨ih1, ih2⟩ := ih
    by_cases hc : usChar c = true
    · refine ⟨?_, ?_⟩
      · simp only [collapseAux, hc, if_true, if_pos]
        exact ih1
      · intro b
        cases b with
        | true =>
          simp only [collapseAux, hc, if_true, if_pos]
          exact ih2 true
        | false =>
          simp only [collapseAux, hc, if_true]
          rw [if_neg (by simp)]
          exact noDoubleU_cons_intro (fun _ => ih1) (ih2 true)
    · have harr : c ≠ '_' := by
        intro h
        rw [h] at hc
        exact hc (by decide)
      refine ⟨?_, ?_⟩
      · simp only [collapseAux, hc]
        rw [if_neg (by simp [hc])]
        simp [harr]
      · intro b
        simp only [collapseAux, hc]
        rw [if_neg (by simp [hc])]
        exact noDoubleU_cons_intro (fun h => absurd h harr) (ih2 false)

/-- `sanitize_filename` always lands in the normal form for its budget. -/
theorem sanitize_normal (s : Str) (n : Nat) :
    SanNormal n (sanitize_filename s n) := by
  set a := subSpecial s with ha
  set b := collapseAux false a with hb
  set c := rstripU (lstripU b) with hc
  set d := (if c.length > n then c.take n else c) with hd
  have hres : sanitize_filename s n = rstripU d := by
    simp only [sanitize_filename, ← ha, ← hb, ← hc, ← hd]
  -- chars of b: kept and not whitespace
  have hbchar : ∀ x ∈ b, keepChar x = true ∧ x.isWhitespace = false := by
    intro x hx
    rcases mem_collapseAux hx with h | h
    · subst h; exact ⟨by decide, by decide⟩
    · refine ⟨mem_subSpecial h.1, ?_⟩
      have := h.2
      unfold usChar at this
      exact (Bool.or_eq_false_iff.1 this).1
  have hbdd : noDoubleU b = true := (collapseAux_shape a).2 false
  -- c is an infix of b
  have hcpre : c <+: lstripU b := rstripU_isPrefix _
  have hcsub : ∀ x ∈ c, x ∈ b := by
    intro x hx
    exact (lstripU_isSuffix b).sublist.mem (hcpre.sublist.mem hx)
  have hcdd : noDoubleU c = true :=
    noDoubleU_of_pre hcpre (noDoubleU_of_suffix (lstripU_isSuffix b) hbdd)
  have hchead : c.head? ≠ some '_' := by
    intro h
    exact lstripU_head_ne b (head?_of_pre hcpre h)
  -- d is a prefix of c with length ≤ n
  have hdpre : d <+: c := by
    rw [hd]
    by_cases h : c.length > n
    · rw [if_pos h]; exact List.take_prefix n c
    · rw [if_neg h]
  have hdlen : d.length ≤ n := by
    rw [hd]
    by_cases h : c.length > n
    · rw [if_pos h]
      simp only [List.length_take]
      omega
    · rw [if_neg h]; omega
  -- the result is a prefix of d
  have hrpre : rstripU d <+: d := rstripU_isPrefix d
  refine ⟨?_, ?_, ?_, ?_, ?_⟩
  · rw [hres]
    intro x hx
    exact hbchar x (hcsub x (hdpre.sublist.mem (hrpre.sublist.mem hx)))
  · rw [hres]
    exact noDoubleU_of_pre hrpre (noDoubleU_of_pre hdpre hcdd)
  · rw [hres]
    intro h
    exact hchead (head?_of_pre hdpre (head?_of_pre hrpre h))
  · rw [hres]
    exact rstripU_getLast_ne d
  · rw [hres]
    exact le_trans hrpre.length_le hdlen

/-- C8: `sanitize(sanitize(s, n), n) == sanitize(s, n)` — `sanitize_filename`
is idempotent at a fixed length budget, for every string and every budget. -/
theorem sanitize_filename_idempotent (s : Str) (n : Nat) :
    sanitize_filename (sanitize_filename s n) n = sanitize_filename s n :=
  sanitize_of_normal (sanitize_normal s n)

/-! ## DateResolver — `parse_date_from_path` (io.py:275-409)

Each regular-expression tier is embedded as a deterministic matcher tried at
every start position from the left (`re.search` leftmost semantics); greedy
`\d{1,2}` groups are modelled by trying the two-digit option before the
one-digit option, exactly the backtracking order of the Python engine. -/

/-- Digit value of a digit character. -/
def d2n (c : Char) : Nat := c.toNat - '0'.toNat

/-- `int(s)` for a string of digits. -/
def natOfStr (s : Str) : Nat := s.foldl (fun n c => n * 10 + d2n c) 0

/-- `s.zfill(2)`. -/
def zfill2 (s : Str) : Str := if s.length == 1 then '0' :: s else s

/-- `str(n)` for a natural number. -/
def natToStr (n : Nat) : Str := Nat.toDigits 10 n

/-- A date match broken into its year, month and day strings; the code
renders it as `f"{y}-{m}-{d}"`. -/
structure DOut where
  y : Str
  m : Str
  d : Str
deriving DecidableEq

/-- `f"{year}-{month}-{day}"`. -/
def renderDate (r : DOut) : Str := r.y ++ '-' :: r.m ++ '-' :: r.d

/-- Character class `[-_.]`. -/
def sepYMD (c : Char) : Bool := c == '-' || c == '_' || c == '.'

/-- Character class `[-_]`. -/
def sepMD (c : Char) : Bool := c == '-' || c == '_'

/-- Leftmost search: try the position matcher at every suffix, leftmost
first (`re.search`). -/
def searchPos (f : Str → Option α) : Str → Option α
  | [] => f []
  | c :: rest => f (c :: rest) <|> searchPos f rest

/-- First success of `f` over a list of alternatives (regex backtracking
order). -/
def firstSome (l : List α) (f : α → Option β) : Option β :=
  match l with
  | [] => none
  | a :: t => f a <|> firstSome t f

/-- Greedy `(\d{1,2})` at the current position: the list of possible
(group, remainder) splits, two digits preferred. -/
def takeDigits12 : Str → List (Str × Str)
  | a :: b :: rest =>
    if a.isDigit then
      if b.isDigit then [([a, b], rest), ([a], b :: rest)] else [([a], b :: rest)]
    else []
  | [a] => if a.isDigit then [([a], [])] else []
  | [] => []

/-- Tier 0: `re.match(r'^(\d{4})-(\d{2})-(\d{2})_', name)` with month/day
range validation (io.py:288-295). -/
def tier0 : Str → Option DOut
  | y1 :: y2 :: y3 :: y4 :: '-' :: m1 :: m2 :: '-' :: d1 :: d2 :: '_' :: _ =>
    if [y1, y2, y3, y4, m1, m2, d1, d2].all Char.isDigit then
      let mv := natOfStr [m1, m2]
      let dv := natOfStr [d1, d2]
      if 1 ≤ mv && mv ≤ 12 && 1 ≤ dv && dv ≤ 31 then
        some ⟨[y1, y2, y3, y4], [m1, m2], [d1, d2]⟩
      else none
    else none
  | _ => none

/-- Position matcher for `(\d{4})[-_.](\d{2})[-_.](\d{2})`. -/
def m1At : Str → Option DOut
  | y1 :: y2 :: y3 :: y4 :: s1 :: mo1 :: mo2 :: s2 :: d1 :: d2 :: _ =>
    if [y1, y2, y3, y4, mo1, mo2, d1, d2].all Char.isDigit && sepYMD s1 && sepYMD s2 then
      some ⟨[y1, y2, y3, y4], [mo1, mo2], [d1, d2]⟩
    else none
  | _ => none

/-- Tier 1: `re.search(r'(\d{4})[-_.](\d{2})[-_.](\d{2})', name)` — no range
validation in the code (io.py:297-301). -/
def tier1 (name : Str) : Option DOut := searchPos m1At name

/-- Position matcher for `(\d{1,2})[-_](\d{1,2})[-_](\d{4})`. -/
def m15At (l : Str) : Option (Str × Str × Str) :=
  firstSome (takeDigits12 l) fun p =>
    match p.2 with
    | s1 :: r1 =>
      if sepMD s1 then
        firstSome (takeDigits12 r1) fun q =>
          match q.2 with
          | s2 :: a :: b :: c :: d :: _ =>
            if sepMD s2 && [a, b, c, d].all Char.isDigit then
              some (p.1, q.1, [a, b, c, d])
            else none
          | _ => none
      else none
    | [] => none

/-- The `MM[-_]DD[-_]YYYY` search of tier 1.5. -/
def search15 (name : Str) : Option (Str × Str × Str) := searchPos m15At name

/-- Tier 1.5: `MM_DD_YYYY` / `MM-DD-YYYY` with month/day disambiguation by
validity (io.py:303-319). -/
def tier15 (name : Str) : Option DOut :=
  match search15 name with
  | none => none
  | some (n1, n2, y) =>
    let v1 := natOfStr n1
    let v2 := natOfStr n2
    if 1 ≤ v1 && v1 ≤ 12 && 1 ≤ v2 && v2 ≤ 31 then some ⟨y, zfill2 n1, zfill2 n2⟩
    else if 1 ≤ v2 && v2 ≤ 12 && 1 ≤ v1 && v1 ≤ 31 then some ⟨y, zfill2 n2, zfill2 n1⟩
    else none

/-- Position matcher for `(\d{1,2})[-_](\d{1,2})[-_](\d{2})(?!\d)`. -/
def m16At (l : Str) : Option (Str × Str × Str) :=
  firstSome (takeDigits12 l) fun p =>
    match p.2 with
    | s1 :: r1 =>
      if sepMD s1 then
        firstSome (takeDigits12 r1) fun q =>
          match q.2 with
          | s2 :: a :: b :: rest =>
            let lookaheadOK := match rest with
              | e :: _ => !e.isDigit
              | [] => true
            if sepMD s2 && a.isDigit && b.isDigit && lookaheadOK then
              some (p.1, q.1, [a, b])
            else none
          | _ => none
      else none
    | [] => none

/-- The `MM[-_]DD[-_]YY` search of tier 1.6. -/
def search16 (name : Str) : Option (Str × Str × Str) := searchPos m16At name

/-- Tier 1.6: `MM_DD_YY` with two-digit year expansion (`<50 → 2000+yy`,
`>=50 → 1900+yy`) and the same disambiguation (io.py:321-344). -/
def tier16 (name : Str) : Option DOut :=
  match search16 name with
  | none => none
  | some (n1, n2, yy) =>
    let v1 := natOfStr n1
    let v2 := natOfStr n2
    let yv := natOfStr yy
    let y := natToStr (if yv < 50 then 2000 + yv else 1900 + yv)
    if 1 ≤ v1 && v1 ≤ 12 && 1 ≤ v2 && v2 ≤ 31 then some ⟨y, zfill2 n1, zfill2 n2⟩
    else if 1 ≤ v2 && v2 ≤ 12 && 1 ≤ v1 && v1 ≤ 31 then some ⟨y, zfill2 n2, zfill2 n1⟩
    else none

/-- The month-name dictionary of io.py:347-360 (note: dotted keys are
unreachable, since the lookup key has its trailing dots stripped). -/
def monthNames : List (Str × Str) :=
  [("jan".data, "01".data), ("january".data, "01".data), ("jan.".data, "01".data),
   ("feb".data, "02".data), ("february".data, "02".data), ("feb.".data, "02".data),
   ("mar".data, "03".data), ("march".data, "03".data), ("mar.".data, "03".data),
   ("apr".data, "04".data), ("april".data, "04".data), ("apr.".data, "04".data),
   ("may".data, "05".data), ("may.".data, "05".data),
   ("jun".data, "06".data), ("june".data, "06".data), ("jun.".data, "06".data),
   ("jul".data, "07".data), ("july".data, "07".data), ("jul.".data, "07".data),
   ("aug".data, "08".data), ("august".data, "08".data), ("aug.".data, "08".data),
   ("sep".data, "09".data), ("september".data, "09".data), ("sep.".data, "09".data),
   ("sept.".data, "09".data),
   ("oct".data, "10".data), ("october".data, "10".data), ("oct.".data, "10".data),
   ("nov".data, "11".data), ("november".data, "11".data), ("nov.".data, "11".data),
   ("dec".data, "12".data), ("december".data, "12".data), ("dec.".data, "12".data)]

/-- Dictionary lookup. -/
def assocLookup : List (Str × Str) → Str → Option Str
  | [], _ => none
  | (k, v) :: rest, key => if key == k then some v else assocLookup rest key

/-- `s.lower()`. -/
def lowerStr (s : Str) : Str := s.map Char.toLower

/-- `s.rstrip('.')`. -/
def rstripDots (s : Str) : Str := (s.reverse.dropWhile (· == '.')).reverse

/-- The `[A-Za-z]` class (IGNORECASE adds nothing to it). -/
def isAlphaAZ (c : Char) : Bool := ('a' ≤ c && c ≤ 'z') || ('A' ≤ c && c ≤ 'Z')

/-- The `[,_\s]` class of tier 2. -/
def isSepT2 (c : Char) : Bool := c == ',' || c == '_' || c.isWhitespace

/-- Rest of the tier-2 pattern after the month-name group:
`\s+(\d{1,2})[,_\s]+(\d{4})`. -/
def m2Tail (monthStr : Str) (rest : Str) : Option (Str × Str × Str) :=
  let wsRun := rest.takeWhile Char.isWhitespace
  if wsRun.isEmpty then none
  else
    firstSome (takeDigits12 (rest.drop wsRun.length)) fun p =>
      let sepRun := p.2.takeWhile isSepT2
      if sepRun.isEmpty then none
      else
        match p.2.drop sepRun.length with
        | a :: b :: c :: d :: _ =>
          if [a, b, c, d].all Char.isDigit then some (monthStr, p.1, [a, b, c, d])
          else none
        | _ => none

/-- Position matcher for `([A-Za-z]+\.?)\s+(\d{1,2})[,_\s]+(\d{4})`: the
letter run is maximal (a shorter run is followed by a letter, failing
`\.?\s`), and the optional dot is tried greedily. -/
def m2At (l : Str) : Option (Str × Str × Str) :=
  let run := l.takeWhile isAlphaAZ
  if run.isEmpty then none
  else
    let r1 := l.drop run.length
    (match r1 with
     | '.' :: r2 => m2Tail (run ++ ['.']) r2
     | _ => none) <|>
      m2Tail run r1

/-- The `MonthName DD, YYYY` search of tier 2. -/
def search2 (name : Str) : Option (Str × Str × Str) := searchPos m2At name

/-- Tier 2: `MMM. DD, YYYY` with dictionary month lookup; the day is only
`zfill(2)`-padded, never range-checked (io.py:346-374). -/
def tier2 (name : Str) : Option DOut :=
  match search2 name with
  | none => none
  | some (monthStr, day, year) =>
    match assocLookup monthNames (rstripDots (lowerStr monthStr)) with
    | some m => some ⟨year, m, zfill2 day⟩
    | none => none

/-- Position matcher for `([A-Za-z]+)[-_](\d{4})`. -/
def m3At (l : Str) : Option (Str × Str) :=
  let run := l.takeWhile isAlphaAZ
  if run.isEmpty then none
  else
    match l.drop run.length with
    | s :: a :: b :: c :: d :: _ =>
      if sepMD s && [a, b, c, d].all Char.isDigit then some (run, [a, b, c, d])
      else none
    | _ => none

/-- Tier 3: `MMM_YYYY` / `MMM-YYYY`, day defaults to `01` (io.py:376-388). -/
def tier3 (name : Str) : Option DOut :=
  match searchPos m3At name with
  | none => none
  | some (monthStr, year) =>
    match assocLookup monthNames (rstripDots (lowerStr monthStr)) with
    | some m => some ⟨year, m, ['0', '1']⟩
    | none => none

/-- Position matcher for `(\d{1,2})[-_](\d{4})(?![-_]\d)`. -/
def m35At (l : Str) : Option (Str × Str) :=
  firstSome (takeDigits12 l) fun p =>
    match p.2 with
    | s :: a :: b :: c :: d :: rest =>
      if sepMD s && [a, b, c, d].all Char.isDigit then
        let lookaheadOK := match rest with
          | s2 :: e :: _ => !(sepMD s2 && e.isDigit)
          | _ => true
        if lookaheadOK then some (p.1, [a, b, c, d]) else none
      else none
    | _ => none

/-- Tier 3.5: `MM_YYYY` / `MM-YYYY` with month validation, day defaults to
`01` (io.py:390-400). -/
def tier35 (name : Str) : Option DOut :=
  match searchPos m35At name with
  | none => none
  | some (mo, year) =>
    let mv := natOfStr mo
    if 1 ≤ mv && mv ≤ 12 then some ⟨year, zfill2 mo, ['0', '1']⟩ else none

/-- Position matcher for `(\d{4})[-_.](\d{2})(?![-_.]\d{2})`. -/
def m4At : Str → Option (Str × Str)
  | y1 :: y2 :: y3 :: y4 :: s :: a :: b :: rest =>
    if [y1, y2, y3, y4, a, b].all Char.isDigit && sepYMD s then
      let lookaheadOK := match rest with
        | s2 :: e :: f :: _ => !(sepYMD s2 && e.isDigit && f.isDigit)
        | _ => true
      if lookaheadOK then some ([y1, y2, y3, y4], [a, b]) else none
    else none
  | _ => none

/-- Tier 4: `YYYY-MM` / `YYYY_MM` / `YYYY.MM`, day defaults to `01`; the
month is not range-validated (io.py:402-406). -/
def tier4 (name : Str) : Option DOut :=
  match searchPos m4At name with
  | none => none
  | some (y, mo) => some ⟨y, mo, ['0', '1']⟩

/-- The early-return cascade of `parse_date_from_path`, first match wins. -/
def parseTiers (name : Str) : Option DOut :=
  tier0 name <|> tier1 name <|> tier15 name <|> tier16 name <|> tier2 name <|>
    tier3 name <|> tier35 name <|> tier4 name

/-- `parse_date_from_path` from io.py, applied to the file's name: returns
the rendered `YYYY-MM-DD` string of the first tier that matches, or `none`. -/
def parse_date_from_path (name : Str) : Option Str :=
  (parseTiers name).map renderDate

/-! ## PathBuilder — `create_destination_filename` (filter_files.py:311-367)

`base` stands for `str(filtered_data_dir / rel_path.parent)` and the
destination string is `base ++ "/" ++ f"{parsed_date}_{stem'}.txt"`.  The
arithmetic of the third truncation stage is done in `Int`, as in Python. -/

def create_destination_filename (base parsed_date stem : Str) : Str :=
  let san0 := sanitize_filename stem 1000
  let dest0 := base ++ '/' :: (parsed_date ++ '_' :: san0 ++ ".txt".data)
  if dest0.length > 200 then
    let san1 := if san0.length > 50 then san0.take 50 else san0
    let dest1 := base ++ '/' :: (parsed_date ++ '_' :: san1 ++ ".txt".data)
    if dest1.length > 200 then
      let basePathLen : Int := (base.length : Int) + 1
      let avail : Int := 200 - basePathLen - 1
      if avail > 15 then
        let maxStem : Int := avail - 15
        if maxStem > 0 then
          base ++ '/' :: (parsed_date ++ '_' :: san1.take maxStem.toNat ++ ".txt".data)
        else dest1
      else dest1
    else dest1
  else dest0

/-! ### Claims C3, C4, C9 about the date resolver -/

/-- C3: every filename starting with a `\d{4}-\d{2}-\d{2}_` prefix resolves
to exactly the date spelled by that prefix, regardless of the rest of the
name.  (When the prefix tier's range validation rejects the prefix, the
unvalidated `YYYY[-_.]MM[-_.]DD` search still matches the same ten leading
characters, so the returned string is the prefix date in every case.) -/
theorem prefix_date_always_wins
    (y1 y2 y3 y4 mo1 mo2 d1 d2 : Char) (rest : Str)
    (hd : [y1, y2, y3, y4, mo1, mo2, d1, d2].all Char.isDigit = true) :
    parse_date_from_path
        (y1 :: y2 :: y3 :: y4 :: '-' :: mo1 :: mo2 :: '-' :: d1 :: d2 :: '_' :: rest) =
      some [y1, y2, y3, y4, '-', mo1, mo2, '-', d1, d2] := by
  by_cases hv : (1 ≤ natOfStr [mo1, mo2] && natOfStr [mo1, mo2] ≤ 12 &&
      1 ≤ natOfStr [d1, d2] && natOfStr [d1, d2] ≤ 31) = true
  · simp [parse_date_from_path, parseTiers, tier0, hd, hv, renderDate]
  · have hv' : (1 ≤ natOfStr [mo1, mo2] && natOfStr [mo1, mo2] ≤ 12 &&
        1 ≤ natOfStr [d1, d2] && natOfStr [d1, d2] ≤ 31) = false := by
      simpa using hv
    simp [parse_date_from_path, parseTiers, tier0, tier1, searchPos, m1At, hd, hv',
      sepYMD, renderDate]

/-- Closed witness for `prefix_date_always_wins`. -/
theorem prefix_date_always_wins_witness :
    parse_date_from_path "2021-04-15_post.txt".data = some "2021-04-15".data :=
  prefix_date_always_wins '2' '0' '2' '1' '0' '4' '1' '5' "post.txt".data (by decide)

theorem tier0_valid {name : Str} {r : DOut} (h : tier0 name = some r) :
    1 ≤ natOfStr r.m ∧ natOfStr r.m ≤ 12 ∧ 1 ≤ natOfStr r.d ∧ natOfStr r.d ≤ 31 := by
  unfold tier0 at h
  split at h
  · simp only [] at h
    split at h
    · split at h
      · rename_i hcond
        injection h with h'
        subst h'
        simp only [Bool.and_eq_true, decide_eq_true_eq] at hcond
        exact ⟨hcond.1.1.1, hcond.1.1.2, hcond.1.2, hcond.2⟩
      · exact absurd h (by simp)
    · exact absurd h (by simp)
  · exact absurd h (by simp)

theorem natOfStr_zfill2 (s : Str) : natOfStr (zfill2 s) = natOfStr s := by
  unfold zfill2
  split
  · simp [natOfStr, List.foldl, d2n]
  · rfl

theorem tier15_valid {name : Str} {r : DOut} (h : tier15 name = some r) :
    1 ≤ natOfStr r.m ∧ natOfStr r.m ≤ 12 ∧ 1 ≤ natOfStr r.d ∧ natOfStr r.d ≤ 31 := by
  unfold tier15 at h
  split at h
  · exact absurd h (by simp)
  · simp only [] at h
    split at h
    · rename_i hcond
      injection h with h'
      subst h'
      simp only [Bool.and_eq_true, decide_eq_true_eq] at hcond
      simp only [natOfStr_zfill2]
      exact ⟨hcond.1.1.1, hcond.1.1.2, hcond.1.2, hcond.2⟩
    · split at h
      · rename_i hcond
        injection h with h'
        subst h'
        simp only [Bool.and_eq_true, decide_eq_true_eq] at hcond
        simp only [natOfStr_zfill2]
        exact ⟨hcond.1.1.1, hcond.1.1.2, hcond.1.2, hcond.2⟩
      · exact absurd h (by simp)

theorem tier16_valid {name : Str} {r : DOut} (h : tier16 name = some r) :
    1 ≤ natOfStr r.m ∧ natOfStr r.m ≤ 12 ∧ 1 ≤ natOfStr r.d ∧ natOfStr r.d ≤ 31 := by
  unfold tier16 at h
  split at h
  · exact absurd h (by simp)
  · simp only [] at h
    split at h
    · rename_i hcond
      injection h with h'
      subst h'
      simp only [Bool.and_eq_true, decide_eq_true_eq] at hcond
      simp only [natOfStr_zfill2]
      exact ⟨hcond.1.1.1, hcond.1.1.2, hcond.1.2, hcond.2⟩
    · split at h
      · rename_i hcond
        injection h with h'
        subst h'
        simp only [Bool.and_eq_true, decide_eq_true_eq] at hcond
        simp only [natOfStr_zfill2]
        exact ⟨hcond.1.1.1, hcond.1.1.2, hcond.1.2, hcond.2⟩
      · exact absurd h (by simp)

theorem assocLookup_mem :
    ∀ {l : List (Str × Str)} {key v : Str}, assocLookup l key = some v →
      v ∈ l.map Prod.snd := by
  intro l
  induction l with
  | nil => intro key v h; simp [assocLookup] at h
  | cons p rest ih =>
    intro key v h
    obtain ⟨k, w⟩ := p
    unfold assocLookup at h
    split at h
    · injection h with h'
      simp [h']
    · simp only [List.map_cons, List.mem_cons]
      exact Or.inr (ih h)

theorem monthNames_snd_valid :
    ∀ v ∈ monthNames.map Prod.snd, 1 ≤ natOfStr v ∧ natOfStr v ≤ 12 := by
  decide

theorem tier3_valid {name : Str} {r : DOut} (h : tier3 name = some r) :
    1 ≤ natOfStr r.m ∧ natOfStr r.m ≤ 12 ∧ 1 ≤ natOfStr r.d ∧ natOfStr r.d ≤ 31 := by
  unfold tier3 at h
  split at h
  · exact absurd h (by simp)
  · split at h
    · rename_i hlk
      injection h with h'
      subst h'
      have hv := monthNames_snd_valid _ (assocLookup_mem hlk)
      have hd1 : (1 : Nat) ≤ natOfStr ['0', '1'] := by decide
      have hd2 : natOfStr ['0', '1'] ≤ 31 := by decide
      exact ⟨hv.1, hv.2, hd1, hd2⟩
    · exact absurd h (by simp)

theorem tier35_valid {name : Str} {r : DOut} (h : tier35 name = some r) :
    1 ≤ natOfStr r.m ∧ natOfStr r.m ≤ 12 ∧ 1 ≤ natOfStr r.d ∧ natOfStr r.d ≤ 31 := by
  unfold tier35 at h
  split at h
  · exact absurd h (by simp)
  · simp only [] at h
    split at h
    · rename_i hcond
      injection h with h'
      subst h'
      simp only [Bool.and_eq_true, decide_eq_true_eq] at hcond
      simp only [natOfStr_zfill2]
      have hd1 : (1 : Nat) ≤ natOfStr ['0', '1'] := by decide
      have hd2 : natOfStr ['0', '1'] ≤ 31 := by decide
      exact ⟨hcond.1, hcond.2, hd1, hd2⟩
    · exact absurd h (by simp)

/-- C4 counterexample: `parse_date_from_path` returns the out-of-range date
`2020-13-40` for the filename `2020-13-40_foo.txt` (the prefix tier rejects
it, but the unvalidated `YYYY[-_.]MM[-_.]DD` search accepts it), refuting
the claim that every returned date has month 1–12 and day 1–31. -/
theorem parse_date_out_of_range_counterexample :
    parse_date_from_path "2020-13-40_foo.txt".data = some "2020-13-40".data ∧
      natOfStr ("2020-13-40".data.drop 5 |>.take 2) = 13 ∧ ¬(13 ≤ 12) := by
  refine ⟨by decide, by decide, by omega⟩

/-- C4 amended: range validation holds for every tier except the
`YYYY[-_.]MM[-_.]DD` search (tier 1), the `MonthName DD, YYYY` tier (tier 2,
whose day is never checked) and the `YYYY[-_.]MM` search (tier 4).  Whenever
those three tiers do not match, a returned date always has month 1–12 and
day 1–31. -/
theorem parse_date_range_validated_when_unvalidated_tiers_miss
    (name s : Str) (h : parse_date_from_path name = some s)
    (h1 : tier1 name = none) (h2 : tier2 name = none) (h4 : tier4 name = none) :
    ∃ r, parseTiers name = some r ∧ s = renderDate r ∧
      1 ≤ natOfStr r.m ∧ natOfStr r.m ≤ 12 ∧ 1 ≤ natOfStr r.d ∧ natOfStr r.d ≤ 31 := by
  unfold parse_date_from_path at h
  obtain ⟨r, hr, hs⟩ := Option.map_eq_some'.1 h
  refine ⟨r, hr, hs.symm, ?_⟩
  unfold parseTiers at hr
  rw [h1, h2, h4] at hr
  cases h0 : tier0 name with
  | some r0 =>
    rw [h0] at hr
    simp only [Option.some_orElse] at hr
    injection hr with h'
    subst h'
    exact tier0_valid h0
  | none =>
    rw [h0] at hr
    simp only [Option.none_orElse] at hr
    cases h15 : tier15 name with
    | some r15 =>
      rw [h15] at hr
      simp only [Option.some_orElse] at hr
      injection hr with h'
      subst h'
      exact tier15_valid h15
    | none =>
      rw [h15] at hr
      simp only [Option.none_orElse] at hr
      cases h16 : tier16 name with
      | some r16 =>
        rw [h16] at hr
        simp only [Option.some_orElse] at hr
        injection hr with h'
        subst h'
        exact tier16_valid h16
      | none =>
        rw [h16] at hr
        simp only [Option.none_orElse] at hr
        cases h3 : tier3 name with
        | some r3 =>
          rw [h3] at hr
          simp only [Option.some_orElse] at hr
          injection hr with h'
          subst h'
          exact tier3_valid h3
        | none =>
          rw [h3] at hr
          simp only [Option.none_orElse, Option.orElse_none] at hr
          exact tier35_valid hr

/-- C9 counterexample: in `05_40_2021.txt` the `MM[-_]DD[-_]YYYY` search
matches with first token `05 ∈ 1–12`, yet the resolver returns nothing at
all — the code additionally requires the second token to be a valid day
(1–31) before treating the first token as the month, so the claim's
"first token 1–12 implies first = month, second = day" is false. -/
theorem mmddyyyy_first_token_counterexample :
    search15 "05_40_2021.txt".data = some ("05".data, "40".data, "2021".data) ∧
      1 ≤ natOfStr "05".data ∧ natOfStr "05".data ≤ 12 ∧
      parse_date_from_path "05_40_2021.txt".data = none :=
  ⟨by decide, by decide, by decide, by decide⟩

/-- C9 amended: for a name where neither the prefix tier nor the
`YYYY[-_.]MM[-_.]DD` search matches and the `MM[-_]DD[-_]YYYY` search finds
tokens `(n1, n2, y)`: if `n1 ∈ 1–12` **and `n2 ∈ 1–31`** then `n1` is the
month and `n2` the day; otherwise if `n2 ∈ 1–12` **and `n1 ∈ 1–31`** then
`n2` is the month and `n1` the day; otherwise this tier rejects and
resolution falls through to the remaining lower-priority tiers. -/
theorem mmddyyyy_disambiguation (name : Str) (n1 n2 y : Str)
    (h0 : tier0 name = none) (h1 : tier1 name = none)
    (hs : search15 name = some (n1, n2, y)) :
    (1 ≤ natOfStr n1 ∧ natOfStr n1 ≤ 12 ∧ 1 ≤ natOfStr n2 ∧ natOfStr n2 ≤ 31 →
      parse_date_from_path name = some (renderDate ⟨y, zfill2 n1, zfill2 n2⟩)) ∧
    (¬(1 ≤ natOfStr n1 ∧ natOfStr n1 ≤ 12 ∧ 1 ≤ natOfStr n2 ∧ natOfStr n2 ≤ 31) →
      (1 ≤ natOfStr n2 ∧ natOfStr n2 ≤ 12 ∧ 1 ≤ natOfStr n1 ∧ natOfStr n1 ≤ 31) →
      parse_date_from_path name = some (renderDate ⟨y, zfill2 n2, zfill2 n1⟩)) ∧
    (¬(1 ≤ natOfStr n1 ∧ natOfStr n1 ≤ 12 ∧ 1 ≤ natOfStr n2 ∧ natOfStr n2 ≤ 31) →
      ¬(1 ≤ natOfStr n2 ∧ natOfStr n2 ≤ 12 ∧ 1 ≤ natOfStr n1 ∧ natOfStr n1 ≤ 31) →
      tier15 name = none ∧
        parse_date_from_path name =
          (tier16 name <|> tier2 name <|> tier3 name <|> tier35 name <|>
            tier4 name).map renderDate) := by
  refine ⟨?_, ?_, ?_⟩
  · intro hc
    have hb : (1 ≤ natOfStr n1 && natOfStr n1 ≤ 12 &&
        1 ≤ natOfStr n2 && natOfStr n2 ≤ 31) = true := by
      simp only [Bool.and_eq_true, decide_eq_true_eq]
      exact ⟨⟨⟨hc.1, hc.2.1⟩, hc.2.2.1⟩, hc.2.2.2⟩
    have ht : tier15 name = some ⟨y, zfill2 n1, zfill2 n2⟩ := by
      simp [tier15, hs, hb]
    simp [parse_date_from_path, parseTiers, h0, h1, ht]
  · intro hc1 hc2
    have hb1 : (1 ≤ natOfStr n1 && natOfStr n1 ≤ 12 &&
        1 ≤ natOfStr n2 && natOfStr n2 ≤ 31) = false := by
      simp only [Bool.and_eq_false_iff, decide_eq_false_iff_not]
      by_cases ha : 1 ≤ natOfStr n1
      · by_cases hb : natOfStr n1 ≤ 12
        · by_cases hcc : 1 ≤ natOfStr n2
          · exact Or.inr fun hd => hc1 ⟨ha, hb, hcc, hd⟩
          · exact Or.inl (Or.inr hcc)
        · exact Or.inl (Or.inl (Or.inr hb))
      · exact Or.inl (Or.inl (Or.inl ha))
    have hb2 : (1 ≤ natOfStr n2 && natOfStr n2 ≤ 12 &&
        1 ≤ natOfStr n1 && natOfStr n1 ≤ 31) = true := by
      simp only [Bool.and_eq_true, decide_eq_true_eq]
      exact ⟨⟨⟨hc2.1, hc2.2.1⟩, hc2.2.2.1⟩, hc2.2.2.2⟩
    have ht : tier15 name = some ⟨y, zfill2 n2, zfill2 n1⟩ := by
      simp [tier15, hs, hb1, hb2]
    simp [parse_date_from_path, parseTiers, h0, h1, ht]
  · intro hc1 hc2
    have hb1 : (1 ≤ natOfStr n1 && natOfStr n1 ≤ 12 &&
        1 ≤ natOfStr n2 && natOfStr n2 ≤ 31) = false := by
      simp only [Bool.and_eq_false_iff, decide_eq_false_iff_not]
      by_cases ha : 1 ≤ natOfStr n1
      · by_cases hb : natOfStr n1 ≤ 12
        · by_cases hcc : 1 ≤ natOfStr n2
          · exact Or.inr fun hd => hc1 ⟨ha, hb, hcc, hd⟩
          · exact Or.inl (Or.inr hcc)
        · exact Or.inl (Or.inl (Or.inr hb))
      · exact Or.inl (Or.inl (Or.inl ha))
    have hb2 : (1 ≤ natOfStr n2 && natOfStr n2 ≤ 12 &&
        1 ≤ natOfStr n1 && natOfStr n1 ≤ 31) = false := by
      simp only [Bool.and_eq_false_iff, decide_eq_false_iff_not]
      by_cases ha : 1 ≤ natOfStr n2
      · by_cases hb : natOfStr n2 ≤ 12
        · by_cases hcc : 1 ≤ natOfStr n1
          · exact Or.inr fun hd => hc2 ⟨ha, hb, hcc, hd⟩
          · exact Or.inl (Or.inr hcc)
        · exact Or.inl (Or.inl (Or.inr hb))
      · exact Or.inl (Or.inl (Or.inl ha))
    have ht : tier15 name = none := by
      simp [tier15, hs, hb1, hb2]
    refine ⟨ht, ?_⟩
    simp [parse_date_from_path, parseTiers, h0, h1, ht]

/-- Closed witness for `mmddyyyy_disambiguation` at `12_06_2022.txt`. -/
theorem mmddyyyy_disambiguation_witness :
    parse_date_from_path "12_06_2022.txt".data =
      some (renderDate ⟨"2022".data, zfill2 "12".data, zfill2 "06".data⟩) :=
  (mmddyyyy_disambiguation "12_06_2022.txt".data "12".data "06".data "2022".data
    (by decide) (by decide) (by decide)).1 (by decide)

/-- Closed witness for the amended C4 theorem at `02_24_2022.txt`. -/
theorem parse_date_range_validated_witness :
    ∃ r, parseTiers "02_24_2022.txt".data = some r ∧
      "2022-02-24".data = renderDate r ∧
      1 ≤ natOfStr r.m ∧ natOfStr r.m ≤ 12 ∧ 1 ≤ natOfStr r.d ∧ natOfStr r.d ≤ 31 :=
  parse_date_range_validated_when_unvalidated_tiers_miss
    "02_24_2022.txt".data "2022-02-24".data (by decide) (by decide) (by decide) (by decide)

/-! ### Claim C2 about the path builder -/

set_option maxRecDepth 8000 in
/-- C2 counterexample: with a folder part of 185 characters and a 60
character stem, all three stages leave a 251-character path — the third
stage is skipped because the remaining budget (13) is not `> 15` — so
`create_destination_filename` does return paths longer than 200 characters.
-/
theorem build_destination_over_200_counterexample :
    (create_destination_filename (List.replicate 185 'b') "2021-04-15".data
        (List.replicate 60 'a')).length = 251 ∧ 200 < 251 :=
  ⟨by decide, by omega⟩

/-- C2 amended: the 200-character bound holds for arbitrarily long stems
whenever the folder part `base` leaves the third stage a positive budget,
i.e. `base.length ≤ 182`; a longer folder part disables the last truncation
stage and the bound can be exceeded. -/
theorem build_destination_length_bounded (base parsed_date stem : Str)
    (hbase : base.length ≤ 182) (hdate : parsed_date.length = 10) :
    (create_destination_filename base parsed_date stem).length ≤ 200 := by
  have hlen4 : (".txt".data : Str).length = 4 := by decide
  have hfn : ∀ s : Str,
      (base ++ '/' :: (parsed_date ++ '_' :: s ++ ".txt".data)).length
        = base.length + s.length + 16 := by
    intro s
    simp only [List.length_append, List.length_cons, hlen4, hdate]
    omega
  unfold create_destination_filename
  simp only []
  repeat' split
  all_goals first
  | omega
  | (simp only [hfn, List.length_take] at *
     omega)

/-- Closed witness for `build_destination_length_bounded`. -/
theorem build_destination_length_bounded_witness :
    (create_destination_filename "data/filtered_data/reddit/2021".data
        "2021-04-15".data (List.replicate 300 'a')).length ≤ 200 :=
  build_destination_length_bounded _ _ _ (by decide) (by decide)

/-! ## ReverseResolver — `find_original_file_from_filtered`
(filter_files.py:211-308)

A candidate source file is a (stem, extension) pair; `fname` is
`Path.name`.  The folder resolution (`relative_to` + `exists()`) is
abstracted into an existence flag plus the list of candidate files of the
matching raw folder, in glob order. -/

structure RawFile where
  stem : Str
  ext : Str
deriving DecidableEq

/-- `file.name`: stem followed by the extension (with its dot). -/
def fname (f : RawFile) : Str := f.stem ++ f.ext

/-- `endsWith s suffix` is Python's `s.endswith(suffix)`. -/
def endsWith (s suffix : Str) : Bool := startsWith s.reverse suffix.reverse

/-- `Path(s).name` for POSIX paths: everything after the last slash. -/
def basename (s : Str) : Str := (s.reverse.takeWhile (· != '/')).reverse

/-- The ten-character `\d{4}-\d{2}-\d{2}` shape of the date group. -/
def dateShape : Str → Bool
  | [a, b, c, d, e, f, g, h, i, j] =>
    [a, b, c, d, f, g, i, j].all Char.isDigit && e == '-' && h == '-'
  | _ => false

/-- `re.match(r'^(\d{4}-\d{2}-\d{2})_(.+?)\.txt$', filename)`, returning the
date group and the (necessarily non-empty) sanitized-stem group. -/
def splitFiltered (name : Str) : Option (Str × Str) :=
  if dateShape (name.take 10) then
    match name.drop 10 with
    | '_' :: rest =>
      if 5 ≤ rest.length && endsWith rest ".txt".data then
        some (name.take 10, rest.take (rest.length - 4))
      else none
    | _ => none
  else none

/-- The equality-or-prefix tie-break of the first candidate loop
(filter_files.py:280-282). -/
def nameTieBreak (sanStem sanOrig : Str) : Bool :=
  sanStem == sanOrig || startsWith sanOrig sanStem || startsWith sanStem sanOrig

/-- The lowercased 20-character-prefix tie-break of the fallback loop
(filter_files.py:295-301). -/
def prefix20TieBreak (sanStemLower : Str) (f : RawFile) : Bool :=
  !sanStemLower.isEmpty &&
    startsWith (lowerStr (sanitize_filename f.stem 1000))
      (sanStemLower.take (min 20 sanStemLower.length))

/-- The per-candidate loop: hard-filter on the filename-resolved date,
collect date-matching candidates in order, return early on a name
tie-break. -/
def findLoop (date sanStem : Str) :
    List RawFile → List RawFile → Option RawFile × List RawFile
  | [], acc => (none, acc)
  | f :: rest, acc =>
    if parse_date_from_path (fname f) == some date then
      if nameTieBreak sanStem (sanitize_filename f.stem 1000) then
        (some f, acc ++ [f])
      else findLoop date sanStem rest (acc ++ [f])
    else findLoop date sanStem rest acc

/-- The post-loop fallback (filter_files.py:288-304): singleton candidate
short-circuits, then the 20-character-prefix pass, then the first
candidate. -/
def findFallback (sanStem : Str) (cands : List RawFile) : Option RawFile :=
  match cands with
  | [] => none
  | [c] => some c
  | c :: _ :: _ =>
    match cands.find? (prefix20TieBreak (lowerStr sanStem)) with
    | some c2 => some c2
    | none => some c

/-- `find_original_file_from_filtered`: parse the destination filename,
then search the corresponding raw folder. -/
def find_original_file_from_filtered (filteredName : Str) (folderExists : Bool)
    (files : List RawFile) : Option RawFile :=
  match splitFiltered filteredName with
  | none => none
  | some (date, sanStem) =>
    if folderExists then
      match findLoop date sanStem files [] with
      | (some f, _) => some f
      | (none, cands) => findFallback sanStem cands
    else none

theorem find?_eq_head?_filter (p : RawFile → Bool) :
    ∀ l : List RawFile, l.find? p = (l.filter p).head? := by
  intro l
  induction l with
  | nil => rfl
  | cons f rest ih =>
    by_cases hf : p f = true
    · rw [List.find?_cons_of_pos _ hf, List.filter_cons_of_pos hf, List.head?_cons]
    · rw [List.find?_cons_of_neg _ (by simp [hf]),
        List.filter_cons_of_neg (by simp [hf]), ih]

theorem findLoop_some {date sanStem : Str} :
    ∀ {files acc : List RawFile} {f : RawFile} {cs : List RawFile},
      findLoop date sanStem files acc = (some f, cs) →
      f ∈ files ∧ parse_date_from_path (fname f) = some date ∧
        nameTieBreak sanStem (sanitize_filename f.stem 1000) = true := by
  intro files
  induction files with
  | nil =>
    intro acc f cs h
    simp [findLoop] at h
  | cons g rest ih =>
    intro acc f cs h
    unfold findLoop at h
    by_cases hd : (parse_date_from_path (fname g) == some date) = true
    · rw [if_pos hd] at h
      by_cases ht : nameTieBreak sanStem (sanitize_filename g.stem 1000) = true
      · rw [if_pos ht] at h
        injection h with h1 h2
        injection h1 with h1
        subst h1
        exact ⟨by simp, by simpa using hd, ht⟩
      · rw [if_neg ht] at h
        obtain ⟨hm, hp, htb⟩ := ih h
        exact ⟨by simp [hm], hp, htb⟩
    · rw [if_neg hd] at h
      obtain ⟨hm, hp, htb⟩ := ih h
      exact ⟨by simp [hm], hp, htb⟩

theorem findLoop_none {date sanStem : Str} :
    ∀ {files acc : List RawFile} {cs : List RawFile},
      findLoop date sanStem files acc = (none, cs) →
      cs = acc ++ files.filter
        (fun f => parse_date_from_path (fname f) == some date) := by
  intro files
  induction files with
  | nil =>
    intro acc cs h
    simp only [findLoop, Prod.mk.injEq] at h
    simp [h.2.symm]
  | cons g rest ih =>
    intro acc cs h
    unfold findLoop at h
    by_cases hd : (parse_date_from_path (fname g) == some date) = true
    · rw [if_pos hd] at h
      by_cases ht : nameTieBreak sanStem (sanitize_filename g.stem 1000) = true
      · rw [if_pos ht] at h
        exact absurd h (by simp)
      · rw [if_neg ht] at h
        rw [ih h]
        simp [List.filter_cons, hd]
    · rw [if_neg hd] at h
      have hd' : (parse_date_from_path (fname g) == some date) = false := by
        simpa using hd
      rw [ih h]
      simp [List.filter_cons, hd']

theorem findLoop_none_of_no_tiebreak {date sanStem : Str} :
    ∀ {files acc : List RawFile},
      (∀ f ∈ files, parse_date_from_path (fname f) = some date →
        nameTieBreak sanStem (sanitize_filename f.stem 1000) = false) →
      findLoop date sanStem files acc =
        (none, acc ++ files.filter
          (fun f => parse_date_from_path (fname f) == some date)) := by
  intro files
  induction files with
  | nil =>
    intro acc _
    simp [findLoop]
  | cons g rest ih =>
    intro acc hno
    unfold findLoop
    by_cases hd : (parse_date_from_path (fname g) == some date) = true
    · rw [if_pos hd]
      have hg := hno g (by simp) (by simpa using hd)
      rw [if_neg (by simp [hg])]
      rw [ih (fun f hf hp => hno f (by simp [hf]) hp)]
      simp [List.filter_cons, hd]
    · rw [if_neg hd]
      rw [ih (fun f hf hp => hno f (by simp [hf]) hp)]
      have hd' : (parse_date_from_path (fname g) == some date) = false := by
        simpa using hd
      simp [List.filter_cons, hd']

theorem findFallback_mem {sanStem : Str} {cands : List RawFile} {c : RawFile}
    (h : findFallback sanStem cands = some c) : c ∈ cands := by
  unfold findFallback at h
  match cands, h with
  | [c0], h =>
    injection h with h
    simp [h.symm]
  | c0 :: c1 :: rest, h =>
    cases hf : (c0 :: c1 :: rest).find? (prefix20TieBreak (lowerStr sanStem)) with
    | some c2 =>
      rw [hf] at h
      injection h with h
      subst h
      exact List.mem_of_find?_eq_some hf
    | none =>
      rw [hf] at h
      injection h with h
      simp [h.symm]

theorem findFallback_none_iff {sanStem : Str} {cands : List RawFile} :
    findFallback sanStem cands = none ↔ cands = [] := by
  constructor
  · intro h
    match cands, h with
    | [], _ => rfl
    | [c0], h => simp [findFallback] at h
    | c0 :: c1 :: rest, h =>
      unfold findFallback at h
      cases hf : (c0 :: c1 :: rest).find? (prefix20TieBreak (lowerStr sanStem)) with
      | some c2 => rw [hf] at h; exact absurd h (by simp)
      | none => rw [hf] at h; exact absurd h (by simp)
  · intro h
    subst h
    rfl

theorem findFallback_first_of_no_tiebreak {sanStem : Str} {cands : List RawFile}
    (h : ∀ f ∈ cands, prefix20TieBreak (lowerStr sanStem) f = false) :
    findFallback sanStem cands = cands.head? := by
  match cands with
  | [] => rfl
  | [c0] => rfl
  | c0 :: c1 :: rest =>
    unfold findFallback
    have hf : (c0 :: c1 :: rest).find? (prefix20TieBreak (lowerStr sanStem)) = none := by
      rw [List.find?_eq_none]
      intro x hx
      simp [h x hx]
    rw [hf]
    rfl

/-- C6: `find_original_file_from_filtered` is a total function (the code's
catch-all `except` is modelled by totality); it returns `none` exactly when
the destination filename does not parse as `YYYY-MM-DD_<stem>.txt`, the
source folder does not exist, or no candidate's filename-resolved date
equals the destination date; a `some` result is always a date-matching
candidate; and when no name-based tie-break succeeds the result is the
first date-matching candidate. -/
theorem find_original_file_spec (filteredName : Str) (folderExists : Bool)
    (files : List RawFile) :
    (find_original_file_from_filtered filteredName folderExists files = none ↔
      splitFiltered filteredName = none ∨ folderExists = false ∨
        ∀ date sanStem, splitFiltered filteredName = some (date, sanStem) →
          ∀ f ∈ files, parse_date_from_path (fname f) ≠ some date) ∧
    (∀ g, find_original_file_from_filtered filteredName folderExists files = some g →
      g ∈ files ∧ ∀ date sanStem, splitFiltered filteredName = some (date, sanStem) →
        parse_date_from_path (fname g) = some date) ∧
    (∀ date sanStem, splitFiltered filteredName = some (date, sanStem) →
      folderExists = true →
      (∀ f ∈ files, parse_date_from_path (fname f) = some date →
        nameTieBreak sanStem (sanitize_filename f.stem 1000) = false ∧
          prefix20TieBreak (lowerStr sanStem) f = false) →
      find_original_file_from_filtered filteredName folderExists files =
        files.find? (fun f => parse_date_from_path (fname f) == some date)) := by
  cases hsp : splitFiltered filteredName with
  | none =>
    refine ⟨?_, ?_, ?_⟩
    · simp [find_original_file_from_filtered, hsp]
    · intro g hg
      simp [find_original_file_from_filtered, hsp] at hg
    · intro date sanStem h
      exact absurd h (by simp)
  | some ds =>
    obtain ⟨date, sanStem⟩ := ds
    cases folderExists with
    | false =>
      refine ⟨?_, ?_, ?_⟩
      · simp [find_original_file_from_filtered, hsp]
      · intro g hg
        simp [find_original_file_from_filtered, hsp] at hg
      · intro date' sanStem' _ hfe
        exact absurd hfe (by simp)
    | true =>
      have hmain : find_original_file_from_filtered filteredName true files =
          match findLoop date sanStem files [] with
          | (some f, _) => some f
          | (none, cands) => findFallback sanStem cands := by
        simp [find_original_file_from_filtered, hsp]
      cases hloop : findLoop date sanStem files [] with
      | mk r cs =>
        cases r with
        | some f =>
          obtain ⟨hmem, hpd, htb⟩ := findLoop_some hloop
          have hval : find_original_file_from_filtered filteredName true files = some f := by
            rw [hmain, hloop]
          refine ⟨?_, ?_, ?_⟩
          · rw [hval]
            constructor
            · intro h
              exact absurd h (by simp)
            · rintro (h | h | h)
              · exact absurd h (by simp)
              · exact absurd h (by simp)
              · exact absurd hpd (h date sanStem rfl f hmem)
          · intro g hg
            rw [hval] at hg
            injection hg with hg
            subst hg
            refine ⟨hmem, ?_⟩
            intro date' sanStem' h'
            injection h' with h'
            injection h' with h1 h2
            subst h1
            exact hpd
          · intro date' sanStem' h' _ hno
            injection h' with h'
            injection h' with h1 h2
            subst h1
            subst h2
            exact absurd htb (by simp [(hno f hmem hpd).1])
        | none =>
          have hcands : cs = files.filter
              (fun f => parse_date_from_path (fname f) == some date) := by
            have := findLoop_none hloop
            simpa using this
          have hval : find_original_file_from_filtered filteredName true files =
              findFallback sanStem cs := by
            rw [hmain, hloop]
          refine ⟨?_, ?_, ?_⟩
          · rw [hval, findFallback_none_iff, hcands]
            rw [List.filter_eq_nil_iff]
            constructor
            · intro h
              refine Or.inr (Or.inr ?_)
              intro date' sanStem' h' f hf
              injection h' with h'
              injection h' with h1 h2
              subst h1
              intro hpd
              exact h f hf (by simp [hpd])
            · rintro (h | h | h)
              · exact absurd h (by simp)
              · exact absurd h (by simp)
              · intro f hf hb
                exact h date sanStem rfl f hf (by simpa using hb)
          · intro g hg
            rw [hval] at hg
            have hmem := findFallback_mem hg
            rw [hcands] at hmem
            rw [List.mem_filter] at hmem
            refine ⟨hmem.1, ?_⟩
            intro date' sanStem' h'
            injection h' with h'
            injection h' with h1 h2
            subst h1
            simpa using hmem.2
          · intro date' sanStem' h' _ hno
            injection h' with h'
            injection h' with h1 h2
            subst h1
            subst h2
            rw [hval]
            have hfb : findFallback sanStem cs = cs.head? := by
              apply findFallback_first_of_no_tiebreak
              intro f hf
              rw [hcands, List.mem_filter] at hf
              exact (hno f hf.1 (by simpa using hf.2)).2
            rw [hfb, hcands, find?_eq_head?_filter]

set_option maxRecDepth 100000 in
/-- Closed witness for `find_original_file_spec`: two same-date candidates,
no tie-break succeeds, the first date-matching candidate is returned. -/
theorem find_original_file_spec_witness :
    find_original_file_from_filtered "2021-04-15_xyz.txt".data true
        [⟨"2021-04-15_abc".data, ".pdf".data⟩, ⟨"abc 2021-04-15".data, ".txt".data⟩] =
      List.find? (fun f => parse_date_from_path (fname f) == some "2021-04-15".data)
        [⟨"2021-04-15_abc".data, ".pdf".data⟩, ⟨"abc 2021-04-15".data, ".txt".data⟩] :=
  (find_original_file_spec "2021-04-15_xyz.txt".data true
      [⟨"2021-04-15_abc".data, ".pdf".data⟩, ⟨"abc 2021-04-15".data, ".txt".data⟩]).2.2
    "2021-04-15".data "xyz".data (by decide) rfl (by decide)

/-! ### Claim C5: the round trip `find_source ∘ build_destination` -/

set_option maxRecDepth 2000 in
/-- The destination path always has the shape
`base / "<date>_<stem'>.txt"` where the stem is the sanitized stem or a
non-trivial prefix of it. -/
theorem create_destination_shape (base parsed_date stem : Str) :
    ∃ s', create_destination_filename base parsed_date stem =
        base ++ '/' :: (parsed_date ++ '_' :: s' ++ ".txt".data) ∧
      (s' = sanitize_filename stem 1000 ∨
        ∃ n, 1 ≤ n ∧ s' = (sanitize_filename stem 1000).take n) := by
  unfold create_destination_filename
  simp only []
  generalize sanitize_filename stem 1000 = s0
  repeat' split
  all_goals first
  | exact ⟨s0, rfl, Or.inl rfl⟩
  | exact ⟨List.take 50 s0, rfl, Or.inr ⟨50, by omega, rfl⟩⟩
  | exact ⟨_, rfl, Or.inr ⟨_, by omega, List.take_take _ _ _⟩⟩
  | exact ⟨_, rfl, Or.inr ⟨_, by omega, rfl⟩⟩

theorem startsWith_append_self : ∀ (p s : Str), startsWith (p ++ s) p = true := by
  intro p
  induction p with
  | nil => intro s; simp [startsWith]
  | cons c cs ih =>
    intro s
    simp [startsWith, ih]

theorem startsWith_take (l : Str) : ∀ n, startsWith l (l.take n) = true := by
  induction l with
  | nil => intro n; simp [List.take_nil, startsWith]
  | cons c cs ih =>
    intro n
    cases n with
    | zero => rfl
    | succ m => simp [List.take_succ_cons, startsWith, ih]

theorem takeWhile_append_stop {p : Char → Bool} :
    ∀ (l1 : Str) (x : Char) (l2 : Str), (∀ a ∈ l1, p a = true) → p x = false →
      (l1 ++ x :: l2).takeWhile p = l1 := by
  intro l1
  induction l1 with
  | nil =>
    intro x l2 _ hx
    simp [List.takeWhile_cons, hx]
  | cons c cs ih =>
    intro x l2 hall hx
    have hc : p c = true := hall c (by simp)
    simp only [List.cons_append, List.takeWhile_cons, hc, if_true]
    rw [ih x l2 (fun a ha => hall a (by simp [ha])) hx]

/-- `Path(b + "/" + f).name = f` when `f` is slash-free. -/
theorem basename_append {b f : Str} (h : ∀ c ∈ f, c ≠ '/') :
    basename (b ++ '/' :: f) = f := by
  unfold basename
  rw [List.reverse_append, List.reverse_cons]
  rw [List.append_assoc, List.singleton_append]
  rw [takeWhile_append_stop f.reverse '/' b.reverse
    (fun a ha => by simpa using h a (List.mem_reverse.1 ha)) (by decide)]
  exact f.reverse_reverse

theorem dateShape_length {d : Str} (h : dateShape d = true) : d.length = 10 := by
  unfold dateShape at h
  split at h
  · simp
  · exact absurd h (by simp)

theorem dateShape_no_slash {d : Str} (h : dateShape d = true) :
    ∀ c ∈ d, c ≠ '/' := by
  unfold dateShape at h
  split at h
  · rename_i a b c' d' e f g h' i j
    simp only [Bool.and_eq_true, List.all_eq_true] at h
    obtain ⟨⟨hdig, he⟩, hh⟩ := h
    intro c hc hcs
    subst hcs
    simp only [List.mem_cons, List.not_mem_nil, or_false] at hc
    have hslash : ∀ x, x.isDigit = true → x ≠ '/' := by
      intro x hx hxe
      subst hxe
      exact absurd hx (by decide)
    rcases hc with h | h | h | h | h | h | h | h | h | h <;> subst h
    · exact hslash _ (hdig _ (by simp)) rfl
    · exact hslash _ (hdig _ (by simp)) rfl
    · exact hslash _ (hdig _ (by simp)) rfl
    · exact hslash _ (hdig _ (by simp)) rfl
    · simp only [beq_iff_eq] at he
      exact absurd he.symm (by decide)
    · exact hslash _ (hdig _ (by simp)) rfl
    · exact hslash _ (hdig _ (by simp)) rfl
    · simp only [beq_iff_eq] at hh
      exact absurd hh.symm (by decide)
    · exact hslash _ (hdig _ (by simp)) rfl
    · exact hslash _ (hdig _ (by simp)) rfl
  · exact absurd h (by simp)

theorem splitFiltered_of_shape {date s' : Str} (hshape : dateShape date = true)
    (hne : s' ≠ []) :
    splitFiltered (date ++ '_' :: s' ++ ".txt".data) = some (date, s') := by
  have hassoc : date ++ '_' :: s' ++ ".txt".data =
      date ++ ('_' :: (s' ++ ".txt".data)) := by
    simp [List.append_assoc]
  rw [hassoc]
  unfold splitFiltered
  have hlen : date.length = 10 := dateShape_length hshape
  have htake : (date ++ ('_' :: (s' ++ ".txt".data))).take 10 = date :=
    List.take_left' hlen
  have hdrop : (date ++ ('_' :: (s' ++ ".txt".data))).drop 10 =
      '_' :: (s' ++ ".txt".data) :=
    List.drop_left' hlen
  rw [htake, hdrop, if_pos hshape]
  have h4 : (".txt".data : Str).length = 4 := rfl
  have hcond : (5 ≤ (s' ++ ".txt".data).length &&
      endsWith (s' ++ ".txt".data) ".txt".data) = true := by
    have h1 : 0 < s'.length := List.length_pos.2 hne
    simp only [Bool.and_eq_true, decide_eq_true_eq]
    constructor
    · rw [List.length_append, h4]
      omega
    · unfold endsWith
      rw [List.reverse_append]
      exact startsWith_append_self _ _
  simp only [hcond, if_true]
  have hrlen : (s' ++ ".txt".data).length - 4 = s'.length := by
    rw [List.length_append, h4]
    omega
  rw [hrlen, List.take_left]

theorem findLoop_returns_orig {date sanStem : Str} {orig : RawFile} :
    ∀ {files : List RawFile} (acc : List RawFile), orig ∈ files →
      parse_date_from_path (fname orig) = some date →
      (∀ f ∈ files, f ≠ orig → parse_date_from_path (fname f) ≠ some date) →
      nameTieBreak sanStem (sanitize_filename orig.stem 1000) = true →
      ∃ cs, findLoop date sanStem files acc = (some orig, cs) := by
  intro files
  induction files with
  | nil =>
    intro acc h
    simp at h
  | cons g rest ih =>
    intro acc hmem hpd huniq htb
    unfold findLoop
    by_cases hg : g = orig
    · subst hg
      rw [if_pos (by simp [hpd]), if_pos htb]
      exact ⟨_, rfl⟩
    · have hnd : parse_date_from_path (fname g) ≠ some date := huniq g (by simp) hg
      rw [if_neg (by simpa using hnd)]
      have hmem' : orig ∈ rest := by
        rcases List.mem_cons.1 hmem with h | h
        · exact absurd h.symm hg
        · exact h
      exact ih _ hmem' hpd (fun f hf => huniq f (by simp [hf])) htb

/-- C5: round trip — when a source file's filename resolves to a date, no
other file of the same folder resolves to the same date, and the sanitizer
keeps something of its stem, reverse resolution of the built destination
path returns exactly the original file. -/
theorem round_trip_recovers_source
    (base date stem ext : Str) (files : List RawFile)
    (horig : RawFile.mk stem ext ∈ files)
    (hdate : parse_date_from_path (stem ++ ext) = some date)
    (huniq : ∀ f ∈ files, f ≠ RawFile.mk stem ext →
      parse_date_from_path (fname f) ≠ some date)
    (hshape : dateShape date = true)
    (hsan : sanitize_filename stem 1000 ≠ []) :
    find_original_file_from_filtered
        (basename (create_destination_filename base date stem)) true files =
      some (RawFile.mk stem ext) := by
  obtain ⟨s', hpath, hdisj⟩ := create_destination_shape base date stem
  have hnorm := sanitize_normal stem 1000
  have hsub : ∀ c ∈ s', c ∈ sanitize_filename stem 1000 := by
    rcases hdisj with h | ⟨n, _, h⟩
    · subst h
      exact fun c hc => hc
    · subst h
      exact fun c hc => List.take_subset n _ hc
  have hne : s' ≠ [] := by
    rcases hdisj with h | ⟨n, hn, h⟩
    · subst h
      exact hsan
    · subst h
      rw [ne_eq, List.take_eq_nil_iff]
      push_neg
      exact ⟨by omega, hsan⟩
  have hslash : ∀ c ∈ date ++ '_' :: s' ++ ".txt".data, c ≠ '/' := by
    intro c hc hcs
    subst hcs
    simp only [List.mem_append, List.mem_cons] at hc
    rcases hc with (h | h | h) | h
    · exact dateShape_no_slash hshape _ h rfl
    · exact absurd h (by decide)
    · exact absurd ((hnorm.1 '/' (hsub _ h)).1) (by decide)
    · exact absurd h (by decide)
  have hbn : basename (create_destination_filename base date stem) =
      date ++ '_' :: s' ++ ".txt".data := by
    rw [hpath]
    exact basename_append hslash
  have hsplit : splitFiltered (date ++ '_' :: s' ++ ".txt".data) = some (date, s') :=
    splitFiltered_of_shape hshape hne
  have htb : nameTieBreak s' (sanitize_filename stem 1000) = true := by
    rcases hdisj with h | ⟨n, _, h⟩
    · subst h
      simp [nameTieBreak]
    · subst h
      unfold nameTieBreak
      rw [startsWith_take]
      simp
  obtain ⟨cs, hloop⟩ := findLoop_returns_orig [] horig hdate huniq htb
  rw [hbn]
  unfold find_original_file_from_filtered
  rw [hsplit]
  simp only [if_true]
  rw [hloop]

set_option maxRecDepth 100000 in
/-- Closed witness for `round_trip_recovers_source`. -/
theorem round_trip_recovers_source_witness :
    find_original_file_from_filtered
        (basename (create_destination_filename "data/filtered_data/reddit/2021".data
            "2021-04-15".data "2021-04-15_post".data)) true
        [⟨"2021-04-15_post".data, ".pdf".data⟩] =
      some ⟨"2021-04-15_post".data, ".pdf".data⟩ :=
  round_trip_recovers_source "data/filtered_data/reddit/2021".data "2021-04-15".data
    "2021-04-15_post".data ".pdf".data [⟨"2021-04-15_post".data, ".pdf".data⟩]
    (by decide) (by decide) (by decide) (by decide) (by decide)

/-! ## `convert_file_to_txt` (filter_files.py:370-501) — Claim C7

The filesystem is an association list from path to content; the text
extraction libraries are oracle parameters; the library-support flags are
taken as available and the Windows long-path branch collapses into the
plain copy, which it reimplements.  The key point for C7: the function
never looks up the destination before writing. -/

abbrev FileSys := List (Str × Str)

def lookupFS : FileSys → Str → Option Str
  | [], _ => none
  | (p, v) :: rest, q => if q == p then some v else lookupFS rest q

/-- Create or overwrite a file. -/
def writeFS (fs : FileSys) (p v : Str) : FileSys :=
  (p, v) :: fs.filter (fun e => !(e.1 == p))

/-- `Path(p).suffix`: the last dot-segment of the final component, empty
when there is no dot or only a leading one. -/
def extOf (p : Str) : Str :=
  let b := basename p
  let r := b.reverse.takeWhile (· != '.')
  if r.length < b.length && r.length + 1 != b.length then '.' :: r.reverse else []

/-- `Path(p).suffix.lower()`. -/
def extLower (p : Str) : Str := (extOf p).map Char.toLower

/-- `convert_file_to_txt`: copy a `.txt` source to the destination, or
extract text from a PDF/DOCX/HTML source and write it; `False` when the
source is missing, the extraction yields nothing, or the type is
unsupported.  There is no destination-existence check anywhere. -/
def convert_file_to_txt (extractPdf extractDocx extractHtml : Str → Option Str)
    (fs : FileSys) (source_path dest_txt_path : Str) : Bool × FileSys :=
  match lookupFS fs source_path with
  | none => (false, fs)
  | some content =>
    let ext := extLower source_path
    if ext == ".txt".data then (true, writeFS fs dest_txt_path content)
    else if ext == ".pdf".data then
      match extractPdf content with
      | some t => if t.isEmpty then (false, fs) else (true, writeFS fs dest_txt_path t)
      | none => (false, fs)
    else if ext == ".docx".data then
      match extractDocx content with
      | some t => if t.isEmpty then (false, fs) else (true, writeFS fs dest_txt_path t)
      | none => (false, fs)
    else if ext == ".html".data || ext == ".htm".data then
      match extractHtml content with
      | some t => if t.isEmpty then (false, fs) else (true, writeFS fs dest_txt_path t)
      | none => (false, fs)
    else (false, fs)

theorem lookupFS_filter_ne {p q : Str} (h : ¬ q = p) :
    ∀ fs : FileSys,
      lookupFS (fs.filter (fun e => !(e.1 == p))) q = lookupFS fs q := by
  intro fs
  induction fs with
  | nil => rfl
  | cons e rest ih =>
    obtain ⟨k, v⟩ := e
    by_cases he : k = p
    · subst he
      rw [List.filter_cons, if_neg (by simp)]
      rw [ih]
      simp only [lookupFS]
      rw [if_neg (by simpa using h)]
    · rw [List.filter_cons, if_pos (by simpa using he)]
      simp only [lookupFS]
      by_cases hq : q = k
      · subst hq
        rw [if_pos (by simp), if_pos (by simp)]
      · rw [if_neg (by simpa using hq), if_neg (by simpa using hq)]
        exact ih

theorem lookupFS_writeFS_self (fs : FileSys) (p v : Str) :
    lookupFS (writeFS fs p v) p = some v := by
  simp [writeFS, lookupFS]

theorem lookupFS_writeFS_other {p q : Str} (h : ¬ q = p) (fs : FileSys) (v : Str) :
    lookupFS (writeFS fs p v) q = lookupFS fs q := by
  unfold writeFS
  have hstep : lookupFS ((p, v) :: fs.filter (fun e => !(e.1 == p))) q =
      lookupFS (fs.filter (fun e => !(e.1 == p))) q := by
    simp only [lookupFS]
    rw [if_neg (by simpa using h)]
  rw [hstep]
  exact lookupFS_filter_ne h fs

theorem writeFS_idem (fs : FileSys) (p v : Str) :
    writeFS (writeFS fs p v) p v = writeFS fs p v := by
  unfold writeFS
  simp only [List.filter_cons, beq_self_eq_true, Bool.not_true, if_false]
  rw [List.filter_filter]
  simp

/-- C7 counterexample: a `.txt` conversion with an already-present
destination file overwrites it — the per-file processing performs no
existence check before writing, so the destination's prior contents are not
left unchanged. -/
theorem convert_overwrites_existing_destination :
    (convert_file_to_txt (fun _ => none) (fun _ => none) (fun _ => none)
        [("a.txt".data, "new".data), ("out.txt".data, "old".data)]
        "a.txt".data "out.txt".data).1 = true ∧
      lookupFS (convert_file_to_txt (fun _ => none) (fun _ => none) (fun _ => none)
          [("a.txt".data, "new".data), ("out.txt".data, "old".data)]
          "a.txt".data "out.txt".data).2 "out.txt".data = some "new".data ∧
      ("new".data : Str) ≠ "old".data :=
  ⟨by decide, by decide, by decide⟩

/-- C7 amended: re-running the per-file conversion is idempotent in effect
in every branch — the `.txt` copy and the PDF/DOCX/HTML extraction branches
alike.  With the destination path distinct from the source path (they live
in different trees), running `convert_file_to_txt` again on the resulting
filesystem returns exactly the same flag and the same filesystem, because
the written content is recomputed deterministically from the unchanged
source — not because of any existence check. -/
theorem convert_rerun_idempotent (ep ed eh : Str → Option Str)
    (fs : FileSys) (src dst : Str) (hne : ¬ src = dst) :
    convert_file_to_txt ep ed eh
        (convert_file_to_txt ep ed eh fs src dst).2 src dst =
      convert_file_to_txt ep ed eh fs src dst := by
  cases hsrc : lookupFS fs src with
  | none =>
    have h1 : convert_file_to_txt ep ed eh fs src dst = (false, fs) := by
      unfold convert_file_to_txt
      rw [hsrc]
    rw [h1]
    exact h1
  | some content =>
    have hsrc2 : ∀ t : Str, lookupFS (writeFS fs dst t) src = some content := by
      intro t
      rw [lookupFS_writeFS_other hne fs t, hsrc]
    by_cases ht : (extLower src == ".txt".data) = true
    · have h1 : convert_file_to_txt ep ed eh fs src dst =
          (true, writeFS fs dst content) := by
        simp [convert_file_to_txt, hsrc, ht]
      rw [h1]
      show convert_file_to_txt ep ed eh (writeFS fs dst content) src dst =
        (true, writeFS fs dst content)
      simp [convert_file_to_txt, hsrc2 content, ht, writeFS_idem]
    · by_cases hp : (extLower src == ".pdf".data) = true
      · cases hext : ep content with
        | none =>
          have h1 : convert_file_to_txt ep ed eh fs src dst = (false, fs) := by
            simp [convert_file_to_txt, hsrc, ht, hp, hext]
          rw [h1]
          exact h1
        | some t =>
          by_cases hemp : t.isEmpty = true
          · have h1 : convert_file_to_txt ep ed eh fs src dst = (false, fs) := by
              simp [convert_file_to_txt, hsrc, ht, hp, hext, hemp]
            rw [h1]
            exact h1
          · have h1 : convert_file_to_txt ep ed eh fs src dst =
                (true, writeFS fs dst t) := by
              simp [convert_file_to_txt, hsrc, ht, hp, hext, hemp]
            rw [h1]
            show convert_file_to_txt ep ed eh (writeFS fs dst t) src dst =
              (true, writeFS fs dst t)
            simp [convert_file_to_txt, hsrc2 t, ht, hp, hext, hemp, writeFS_idem]
      · by_cases hd : (extLower src == ".docx".data) = true
        · cases hext : ed content with
          | none =>
            have h1 : convert_file_to_txt ep ed eh fs src dst = (false, fs) := by
              simp [convert_file_to_txt, hsrc, ht, hp, hd, hext]
            rw [h1]
            exact h1
          | some t =>
            by_cases hemp : t.isEmpty = true
            · have h1 : convert_file_to_txt ep ed eh fs src dst = (false, fs) := by
                simp [convert_file_to_txt, hsrc, ht, hp, hd, hext, hemp]
              rw [h1]
              exact h1
            · have h1 : convert_file_to_txt ep ed eh fs src dst =
                  (true, writeFS fs dst t) := by
                simp [convert_file_to_txt, hsrc, ht, hp, hd, hext, hemp]
              rw [h1]
              show convert_file_to_txt ep ed eh (writeFS fs dst t) src dst =
                (true, writeFS fs dst t)
              simp [convert_file_to_txt, hsrc2 t, ht, hp, hd, hext, hemp, writeFS_idem]
        · by_cases hh : (extLower src == ".html".data || extLower src == ".htm".data) = true
          · cases hext : eh content with
            | none =>
              have h1 : convert_file_to_txt ep ed eh fs src dst = (false, fs) := by
                simp [convert_file_to_txt, hsrc, ht, hp, hd, hh, hext]
              rw [h1]
              exact h1
            | some t =>
              by_cases hemp : t.isEmpty = true
              · have h1 : convert_file_to_txt ep ed eh fs src dst = (false, fs) := by
                  simp [convert_file_to_txt, hsrc, ht, hp, hd, hh, hext, hemp]
                rw [h1]
                exact h1
              · have h1 : convert_file_to_txt ep ed eh fs src dst =
                    (true, writeFS fs dst t) := by
                  simp [convert_file_to_txt, hsrc, ht, hp, hd, hh, hext, hemp]
                rw [h1]
                show convert_file_to_txt ep ed eh (writeFS fs dst t) src dst =
                  (true, writeFS fs dst t)
                simp [convert_file_to_txt, hsrc2 t, ht, hp, hd, hh, hext, hemp,
                  writeFS_idem]
          · have h1 : convert_file_to_txt ep ed eh fs src dst = (false, fs) := by
              simp [convert_file_to_txt, hsrc, ht, hp, hd, hh]
            rw [h1]
            exact h1

/-- Closed witness for `convert_rerun_idempotent`, exercising the PDF
extraction branch. -/
theorem convert_rerun_idempotent_witness :
    convert_file_to_txt (fun c => some c) (fun _ => none) (fun _ => none)
        (convert_file_to_txt (fun c => some c) (fun _ => none) (fun _ => none)
            [("a.pdf".data, "body".data)] "a.pdf".data "out.txt".data).2
        "a.pdf".data "out.txt".data =
      convert_file_to_txt (fun c => some c) (fun _ => none) (fun _ => none)
        [("a.pdf".data, "body".data)] "a.pdf".data "out.txt".data :=
  convert_rerun_idempotent (fun c => some c) (fun _ => none) (fun _ => none)
    [("a.pdf".data, "body".data)] "a.pdf".data "out.txt".data (by decide)

/-! ## IngestionCoordinator — `filter_and_copy_files`
(filter_files.py:546-888), claims C1 and C10

The pure accounting core of a sequential run: the inclusion filter, the
per-file outcomes (an oracle), the reconciliation pass, and the ledger
write with its re-filtering.  A file is its relative-path component list
under the raw root; all discovered files exist throughout the run; the
successful relative paths recovered by re-scanning the destination tree
are the `rescan` parameter (empty for a fresh destination). -/

/-- A discovered file, as its relative-path components (folders then
filename). -/
structure RelFile where
  parts : List Str
deriving DecidableEq

/-- `"/".join(parts)` — `str(rel_path)` with POSIX separators. -/
def joinParts : List Str → Str
  | [] => []
  | [p] => p
  | p :: ps => p ++ '/' :: joinParts ps

/-- `str(rel_path)`. -/
def relStr (f : RelFile) : Str := joinParts f.parts

/-- `str(file_path)` under the raw root. -/
def fullPath (root : Str) (f : RelFile) : Str := root ++ '/' :: relStr f

/-- `file_path.name`. -/
def fileName (f : RelFile) : Str := (f.parts.getLast?).getD []

/-- The configuration fields read by `filter_and_copy_files`
(`DATA_SOURCE_GROUPS` flattened, `EXCLUDE_FOLDERS`, `EXCLUDE_FILES`,
`EXCLUDE_PATH_PATTERNS`). -/
structure FilterConfig where
  all_folders : List Str
  exclude_folders : List Str
  exclude_files : List Str
  exclude_path_patterns : List Str

/-- The inclusion filter applied to each discovered file
(filter_files.py:587-632; repeated verbatim for the reconciliation pass at
723-762): top-level folder allow-list, exclude-folder names (exact part or
substring of a part), exclude path patterns (substring of the relative
path), exclude filename prefixes. -/
def includedFile (cfg : FilterConfig) (f : RelFile) : Bool :=
  match f.parts.head? with
  | none => false
  | some first_folder =>
    if !cfg.all_folders.contains first_folder then false
    else
      let by_folder := cfg.exclude_folders.any fun folder_name =>
        f.parts.contains folder_name ||
          f.parts.any fun part => containsSub part folder_name
      let by_pattern := cfg.exclude_path_patterns.any fun pat =>
        containsSub (relStr f) pat
      let by_file := cfg.exclude_files.any fun pre =>
        startsWith (fileName f) pre
      !(by_folder || by_pattern || by_file)

/-- Per-file processing outcome (the tagged result of
`_process_single_file_for_filter` / the sequential loop body). -/
inductive FileOutcome
  | ok
  | noDate
  | convFailed
  | procError (msg : Str)

def FileOutcome.isOk : FileOutcome → Bool
  | .ok => true
  | _ => false

def FileOutcome.isNoDate : FileOutcome → Bool
  | .noDate => true
  | _ => false

/-- The skip test applied to each entry before it is written to
`failed_date_parsing.txt` (filter_files.py:851-874): the exclusion rules
re-checked against the entry's full path string. -/
def skipInLedger (cfg : FilterConfig) (s : Str) : Bool :=
  cfg.exclude_folders.any (fun folder_name => containsSub s folder_name) ||
    cfg.exclude_path_patterns.any (fun pat => containsSub s pat) ||
    cfg.exclude_files.any (fun pre => startsWith (basename s) pre)

/-- The lines written to `failed_date_parsing.txt`, in processing order
(the code additionally sorts and deduplicates them, which does not change
membership). -/
def writeLedger (cfg : FilterConfig) (failed_date_parsing : List Str) : List Str :=
  failed_date_parsing.filter (fun s => !skipInLedger cfg s)

/-- Accounting model of a sequential `filter_and_copy_files` run: the
successful full paths and the persisted ledger lines.  `outcome` is the
per-file processing oracle; every discovered file exists for the whole
run. -/
def filter_and_copy_files (cfg : FilterConfig) (root : Str)
    (all_files : List RelFile) (outcome : RelFile → FileOutcome)
    (rescan : List Str) : List Str × List Str :=
  let filtered_files := all_files.filter (includedFile cfg)
  let successful_files :=
    (filtered_files.filter (fun f => (outcome f).isOk)).map (fullPath root)
  let failed_date_parsing :=
    (filtered_files.filter (fun f => (outcome f).isNoDate)).map (fullPath root)
  let raw_txt_files_after_exclude := (all_files.filter (includedFile cfg)).map relStr
  let successful_relative_paths :=
    (filtered_files.filter (fun f => (outcome f).isOk)).map relStr ++ rescan
  let failed_date_relative_paths :=
    (filtered_files.filter (fun f => (outcome f).isNoDate)).map relStr
  let truly_missing := raw_txt_files_after_exclude.filter fun r =>
    !successful_relative_paths.contains r && !failed_date_relative_paths.contains r
  let missing_full_paths := truly_missing.map (fun r => root ++ '/' :: r)
  (successful_files, writeLedger cfg (failed_date_parsing ++ missing_full_paths))

/-- C10: the ledger write re-filters the failed entries against the
exclusion rules using the entry's full path string — an included file that
genuinely failed date parsing is silently omitted from the persisted ledger
whenever its full path contains an exclude-folder name or an exclude path
pattern as a substring, or its filename starts with an exclude-file
prefix. -/
theorem ledger_skips_entry_by_full_path (cfg : FilterConfig) (root : Str)
    (all_files : List RelFile) (outcome : RelFile → FileOutcome)
    (rescan : List Str) (f : RelFile)
    (hinc : includedFile cfg f = true)
    (hfail : outcome f = FileOutcome.noDate)
    (hskip : skipInLedger cfg (fullPath root f) = true) :
    fullPath root f ∉ (filter_and_copy_files cfg root all_files outcome rescan).2 := by
  intro hmem
  unfold filter_and_copy_files at hmem
  simp only [] at hmem
  unfold writeLedger at hmem
  rw [List.mem_filter] at hmem
  rw [hskip] at hmem
  simpa using hmem.2

/-- Closed witness for `ledger_skips_entry_by_full_path`: the raw root's
own directory name contains `_files`, so the failed entry's full path
matches the exclude-folder substring check and is dropped. -/
theorem ledger_skips_entry_by_full_path_witness :
    fullPath "my_files_data/raw".data ⟨["reddit".data, "notes.txt".data]⟩ ∉
      (filter_and_copy_files
          ⟨["reddit".data], ["_files".data], ["fig_".data], []⟩
          "my_files_data/raw".data [⟨["reddit".data, "notes.txt".data]⟩]
          (fun _ => FileOutcome.noDate) []).2 :=
  ledger_skips_entry_by_full_path
    ⟨["reddit".data], ["_files".data], ["fig_".data], []⟩
    "my_files_data/raw".data [⟨["reddit".data, "notes.txt".data]⟩]
    (fun _ => FileOutcome.noDate) [] ⟨["reddit".data, "notes.txt".data]⟩
    (by decide) rfl (by decide)

/-- C1: the no-file-lost invariant fails.  At this input the single
discovered file is included by the inclusion filter and fails date parsing
(so it is in the per-run `failed_date_parsing` list and `truly_missing` is
empty), yet the run returns no successful file and an empty persisted
ledger: the write-time re-filtering matches the exclude-folder name
`_files` against the full path string, whose raw-root component
`my_files_data` contains it, and silently drops the entry. -/
theorem included_failed_file_lost_from_ledger :
    includedFile ⟨["reddit".data], ["_files".data], ["fig_".data], []⟩
        ⟨["reddit".data, "notes.txt".data]⟩ = true ∧
      filter_and_copy_files
          ⟨["reddit".data], ["_files".data], ["fig_".data], []⟩
          "my_files_data/raw".data [⟨["reddit".data, "notes.txt".data]⟩]
          (fun _ => FileOutcome.noDate) [] = ([], []) :=
  ⟨by decide, by decide⟩
